import Mathlib

/-!
# Horus: shallow embedding of the incremental ingestion engine and content store

This file embeds the core of the `horus` repository in Lean 4 and proves the
testable properties of its specification against that embedding.

* `src/horus/models.py` — the `ScrapedItem` record type (timestamps are
  modelled as natural numbers: event instants with their linear order).
* `src/horus/core/storage.py` — `HorusStorage`: the `items` table is modelled
  as a list of `ItemRow` in rowid order; `upsert_items`, `get_latest_timestamp`
  and `search` are translated operation by operation.  `datetime('now')` is an
  explicit `now` argument.
* `src/horus/core/scraper.py` — `BaseScraper.scrape`: the asynchronous arrival
  of intercepted payloads is modelled by an environment `env : Nat → List π`,
  where `env 0` is the list of payloads captured before the initial parse and
  `env i` (for `i ≥ 1`) the payloads newly captured during scroll iteration
  `i`; real-time delays and polling sleeps have no effect on the data flow and
  are erased.  Everything else (early bailout, scroll loop with stagnation
  counter and cutoff stop, batching, dedup, `since` filter, descending stable
  sort) follows the Python line by line.
-/

/-- `horus.models.ScrapedItem`: the universal unit of scraped data.
`extra` (`dict[str, Any]`) is modelled as an association list; it is opaque to
engine and store except for storage/retrieval. -/
structure ScrapedItem where
  id : String
  site_id : String
  url : String
  text : Option String
  author_id : Option String
  author_name : Option String
  timestamp : Nat
  extra : List (String × String)
deriving Repr, DecidableEq

/-- One row of the `items` table of `storage.py`.  Rows are kept in rowid
(insertion) order; `fetched_at` is the internal last-seen instant maintained
by SQLite via `datetime('now')`. -/
structure ItemRow where
  id : String
  site_id : String
  url : String
  text : Option String
  author_id : Option String
  author_name : Option String
  timestamp : Nat
  extra : List (String × String)
  fetched_at : Nat
deriving Repr, DecidableEq

/-- The `(site_id, id)` natural key of a row. -/
def ItemRow.key (r : ItemRow) : String × String := (r.site_id, r.id)

/-- The `(site_id, id)` natural key of an item. -/
def ScrapedItem.key (it : ScrapedItem) : String × String := (it.site_id, it.id)

namespace Horus

/-- `SELECT 1 FROM items WHERE site_id = ? AND id = ?` returns a row. -/
def hasKey (st : List ItemRow) (k : String × String) : Bool :=
  st.any (fun r => r.key = k)

/-- The `UPDATE items SET text = ?, url = ?, author_id = ?, author_name = ?,
extra = ?, fetched_at = datetime('now') WHERE site_id = ? AND id = ?`
statement, applied to one row: rows with the matching key are overwritten
(note: `timestamp` is not in the SET list), other rows are untouched. -/
def updateRow (it : ScrapedItem) (now : Nat) (r : ItemRow) : ItemRow :=
  if r.key = it.key then
    { r with text := it.text, url := it.url, author_id := it.author_id,
             author_name := it.author_name, extra := it.extra,
             fetched_at := now }
  else r

/-- The `INSERT INTO items (id, site_id, url, text, author_id, author_name,
timestamp, extra)` row built from an item (`fetched_at` defaults to
`datetime('now')`). -/
def insertRow (it : ScrapedItem) (now : Nat) : ItemRow :=
  { id := it.id, site_id := it.site_id, url := it.url, text := it.text,
    author_id := it.author_id, author_name := it.author_name,
    timestamp := it.timestamp, extra := it.extra, fetched_at := now }

/-- One iteration of the loop in `HorusStorage.upsert_items`: look the key up;
if present, update (contributing 0 to `new_count`), else insert at the end
(contributing 1). -/
def upsertOne (now : Nat) (st : List ItemRow) (it : ScrapedItem) :
    List ItemRow × Nat :=
  if hasKey st it.key then (st.map (updateRow it now), 0)
  else (st ++ [insertRow it now], 1)

/-- `HorusStorage.upsert_items`: process the items in order through
`upsertOne`, threading the table state and summing `new_count`. -/
def upsert_items (now : Nat) : List ItemRow → List ScrapedItem →
    List ItemRow × Nat
  | st, [] => (st, 0)
  | st, it :: items =>
    ((upsert_items now (upsertOne now st it).1 items).1,
     (upsertOne now st it).2 + (upsert_items now (upsertOne now st it).1 items).2)

/-- The `PRIMARY KEY (site_id, id)` invariant of the `items` table: no two
rows share a key. -/
def keysNodup (st : List ItemRow) : Prop :=
  (st.map ItemRow.key).Nodup

/-- Number of rows with a given key. -/
def countKey (st : List ItemRow) (k : String × String) : Nat :=
  (st.filter (fun r => r.key = k)).length

/-- `HorusStorage.get_latest_timestamp`: `SELECT MAX(timestamp) FROM items
WHERE site_id = ?` with an optional `author_name` filter; `None` when no row
matches. -/
def get_latest_timestamp (st : List ItemRow) (site : String)
    (author : Option String := none) : Option Nat :=
  ((st.filter (fun r =>
      r.site_id = site ∧ (∀ a ∈ author, r.author_name = some a))).map
    (fun r => r.timestamp)).max?

/-! ## Search (`HorusStorage.search`)

SQLite specifics modelled: `LIKE '%q%'` is substring containment on the `text`
column (case-insensitive, modelled by lowercase folding; `NULL` text never
matches); the FTS5 `trigram` virtual table tokenizes text into consecutive
3-character windows, and a `MATCH` against a plain query string is a phrase
query over the query's trigrams at consecutive positions. -/

/-- Case folding applied by both match paths, as a character list. -/
def foldCase (s : String) : List Char := s.data.map Char.toLower

/-- Consecutive 3-character windows of a character list (the FTS5 `trigram`
tokenizer). -/
def trigrams : List Char → List (List Char)
  | a :: b :: c :: rest => [a, b, c] :: trigrams (b :: c :: rest)
  | _ => []

/-- `i.text LIKE '%q%'`: the query occurs as a substring of the row's text;
rows with `NULL` text never match. -/
def likeMatch (q : String) (r : ItemRow) : Bool :=
  match r.text with
  | none => false
  | some t => decide (foldCase q <:+: foldCase t)

/-- `items_fts MATCH q` on the trigram index: the query's trigram sequence
occurs at consecutive positions in the row text's trigram sequence; rows with
`NULL` text were indexed as `NULL` and never match. -/
def ftsTrigramMatch (q : String) (r : ItemRow) : Bool :=
  match r.text with
  | none => false
  | some t => decide (trigrams (foldCase q) <:+: trigrams (foldCase t))

/-- The optional `AND i.site_id = ?` clause. -/
def siteFilter (site : Option String) (r : ItemRow) : Bool :=
  match site with
  | none => true
  | some s => r.site_id = s

/-- Stable insertion (descending by `ts`) of one element into a sorted list:
the element goes after every strictly-greater element and before the first
element that is not strictly greater. -/
def insertDescBy {α : Type} (ts : α → Nat) (x : α) : List α → List α
  | [] => [x]
  | y :: ys => if ts x < ts y then y :: insertDescBy ts x ys else x :: y :: ys

/-- Stable sort, descending by `ts`.  Any stable descending sort (Python's
`list.sort(key=..., reverse=True)`, and SQLite `ORDER BY timestamp DESC` up to
its unspecified tie order) produces this output. -/
def sortDescBy {α : Type} (ts : α → Nat) : List α → List α
  | [] => []
  | x :: xs => insertDescBy ts x (sortDescBy ts xs)

/-- The `use_fts = False` branch of `HorusStorage.search`: `LIKE` containment
filter, site filter, `ORDER BY timestamp DESC LIMIT ?`. -/
def searchLikePath (q : String) (site : Option String) (limit : Nat)
    (st : List ItemRow) : List ItemRow :=
  (sortDescBy (fun r => r.timestamp)
    (st.filter (fun r => likeMatch q r && siteFilter site r))).take limit

/-- The `use_fts = True` branch of `HorusStorage.search`: FTS5 trigram match,
site filter, `ORDER BY timestamp DESC LIMIT ?`. -/
def searchFtsPath (q : String) (site : Option String) (limit : Nat)
    (st : List ItemRow) : List ItemRow :=
  (sortDescBy (fun r => r.timestamp)
    (st.filter (fun r => ftsTrigramMatch q r && siteFilter site r))).take limit

/-- `HorusStorage.search`: `use_fts = len(query) >= 3` selects the branch. -/
def search (q : String) (site : Option String) (limit : Nat)
    (st : List ItemRow) : List ItemRow :=
  if 3 ≤ q.length then searchFtsPath q site limit st
  else searchLikePath q site limit st

/-! ## The incremental crawl engine (`BaseScraper.scrape`)

`env i` is the batch of intercepted payloads newly present in
`collected_responses` when iteration `i` parses (`env 0`: the initial load);
`parser` is the adapter's payload parser. -/

/-- In-loop mutable state of `scrape`: the `all_items` accumulation, the list
of batches passed to `on_batch` so far, `scroll_count` and `no_new_count`. -/
structure ScrapeState where
  all_items : List ScrapedItem
  batches : List (List ScrapedItem)
  scrolls : Nat
  no_new : Nat
deriving Repr, DecidableEq

/-- The final outcome of one `scrape` call: the returned list, the raw
accumulation, the batches delivered to `on_batch`, and the number of scroll
iterations executed. -/
structure ScrapeResult where
  items : List ScrapedItem
  raw : List ScrapedItem
  batches : List (List ScrapedItem)
  scrolls : Nat
deriving Repr, DecidableEq

/-- The cutoff stop test at the bottom of the scroll loop:
`if since and all_items: oldest = min(...); if oldest <= since: break`. -/
def cutoffStop (since : Option Nat) (items : List ScrapedItem) : Bool :=
  match since, (items.map (fun it => it.timestamp)).min? with
  | some T, some m => m ≤ T
  | _, _ => false

/-- The items parsed from the payloads newly captured during scroll
iteration `i` (`collected_responses[prev_resp_count:]` fed through the
parser). -/
def newItemsAt {π : Type} (parser : π → List ScrapedItem) (env : Nat → List π)
    (i : Nat) : List ScrapedItem :=
  (env i).flatMap parser

/-- One iteration body of the scroll loop: scroll, parse the newly captured
payloads, extend the accumulation, emit a batch when nonempty, update
`scroll_count` and the consecutive-stagnation counter (`no_new_count` is
incremented exactly when the item count did not grow, i.e. the new-item list
is empty, and reset to 0 otherwise). -/
def scrollStep {π : Type} (parser : π → List ScrapedItem) (env : Nat → List π)
    (st : ScrapeState) : ScrapeState :=
  { all_items := st.all_items ++ newItemsAt parser env (st.scrolls + 1)
    batches := if (newItemsAt parser env (st.scrolls + 1)).isEmpty then
        st.batches
      else st.batches ++ [newItemsAt parser env (st.scrolls + 1)]
    scrolls := st.scrolls + 1
    no_new := if (st.all_items ++ newItemsAt parser env (st.scrolls + 1)).length
          = st.all_items.length then
        st.no_new + 1
      else 0 }

/-- The scroll loop of `scrape`: `while scroll_count < max_pages`, hence at
most `fuel = max_pages` iterations; after each iteration stop when the
stagnation counter has reached 3 (`no_new_count >= 3`), else when the cutoff
test fires. -/
def scrollLoop {π : Type} (parser : π → List ScrapedItem) (env : Nat → List π)
    (since : Option Nat) : Nat → ScrapeState → ScrapeState
  | 0, st => st
  | fuel + 1, st =>
    if 3 ≤ (scrollStep parser env st).no_new then scrollStep parser env st
    else if cutoffStop since (scrollStep parser env st).all_items then
      scrollStep parser env st
    else scrollLoop parser env since fuel (scrollStep parser env st)

/-- Dedup by `id`, keeping the first occurrence (`seen` is the set of ids
already kept). -/
def dedupGo (seen : List String) : List ScrapedItem → List ScrapedItem
  | [] => []
  | it :: rest =>
    if it.id ∈ seen then dedupGo seen rest
    else it :: dedupGo (it.id :: seen) rest

/-- The dedup pass of `scrape`. -/
def dedupById (l : List ScrapedItem) : List ScrapedItem := dedupGo [] l

/-- The early-bailout test: `if since and all_items and
all(item.timestamp <= since for item in all_items)`. -/
def earlyBailout (since : Option Nat) (items : List ScrapedItem) : Bool :=
  match since with
  | none => false
  | some T => !items.isEmpty && items.all (fun it => it.timestamp ≤ T)

/-- The `since` filter of the post-processing phase:
`[item for item in unique_items if item.timestamp > since]`. -/
def sinceFilter (since : Option Nat) (l : List ScrapedItem) : List ScrapedItem :=
  match since with
  | none => l
  | some T => l.filter (fun it => T < it.timestamp)

/-- The engine state right after the initial parse: the initial items are
the accumulation, one batch was emitted iff they are nonempty, no scroll has
happened. -/
def initState {π : Type} (parser : π → List ScrapedItem)
    (env : Nat → List π) : ScrapeState :=
  { all_items := newItemsAt parser env 0
    batches := if (newItemsAt parser env 0).isEmpty then []
      else [newItemsAt parser env 0]
    scrolls := 0
    no_new := 0 }

/-- The engine state when the try-block of `scrape` finishes: the initial
state if early bailout triggered, otherwise the outcome of the scroll loop. -/
def scrapeFinalState {π : Type} (max_pages : Nat)
    (parser : π → List ScrapedItem) (env : Nat → List π)
    (since : Option Nat) : ScrapeState :=
  if earlyBailout since (newItemsAt parser env 0) then initState parser env
  else scrollLoop parser env since max_pages (initState parser env)

/-- `BaseScraper.scrape` end to end: initial parse and batch, early bailout
or scroll loop, then dedup by id, `since` filter, descending stable sort. -/
def scrapeModel {π : Type} (max_pages : Nat) (parser : π → List ScrapedItem)
    (env : Nat → List π) (since : Option Nat) : ScrapeResult :=
  { items := sortDescBy (fun it => it.timestamp)
      (sinceFilter since
        (dedupById (scrapeFinalState max_pages parser env since).all_items))
    raw := (scrapeFinalState max_pages parser env since).all_items
    batches := (scrapeFinalState max_pages parser env since).batches
    scrolls := (scrapeFinalState max_pages parser env since).scrolls }

/-! ## Configuration surface of `BaseScraper` (for the polling-bounds claim)

`BaseScraper.__init__` keyword parameters, and the constants that are written
literally inside `scrape` rather than taken from configuration. -/

/-- The keyword parameters of `BaseScraper.__init__`. -/
def scraperConfigParams : List String :=
  ["headless", "scroll_delay_min", "scroll_delay_max", "request_jitter",
   "max_pages"]

/-- `for _ in range(30)` — the initial-payload poll attempt count. -/
def initialPollAttempts : Nat := 30

/-- `await asyncio.sleep(1)` — the initial poll interval, in seconds. -/
def initialPollIntervalSeconds : Nat := 1

/-- `random.uniform(2, 4)` — the settle delay range before the initial
parse, in seconds. -/
def settleDelaySecondsRange : Nat × Nat := (2, 4)

/-- `for _ in range(10)` — the in-loop poll attempt count after a scroll. -/
def scrollPollAttempts : Nat := 10

/-! ## Concrete sample data used to exercise the theorems -/

/-- A concrete item, key `("s", "1")`, timestamp 10. -/
def sampleItemA : ScrapedItem :=
  { id := "1", site_id := "s", url := "u1", text := some "alpha text",
    author_id := none, author_name := some "ann", timestamp := 10, extra := [] }

/-- A concrete item, key `("s", "2")`, timestamp 20. -/
def sampleItemB : ScrapedItem :=
  { id := "2", site_id := "s", url := "u2", text := some "beta text",
    author_id := none, author_name := none, timestamp := 20, extra := [] }

/-- Same key as `sampleItemA`, different content and an older timestamp. -/
def sampleItemA2 : ScrapedItem :=
  { id := "1", site_id := "s", url := "u1b", text := some "alpha updated",
    author_id := none, author_name := some "ann", timestamp := 5, extra := [] }

/-- A concrete item, key `("s", "3")`, timestamp 30. -/
def sampleItemC : ScrapedItem :=
  { id := "3", site_id := "s", url := "u3", text := some "gamma text",
    author_id := none, author_name := none, timestamp := 30, extra := [] }

/-- A payload environment (payloads are item lists, parsed by `id`): the
initial load carries `A` and `B`, scroll 1 carries `B` again plus `C`, later
scrolls carry nothing. -/
def sampleEnv : Nat → List (List ScrapedItem)
  | 0 => [[sampleItemA, sampleItemB]]
  | 1 => [[sampleItemB, sampleItemC]]
  | _ => []

/-- A payload environment whose initial page is empty and whose scrolls
yield nothing. -/
def emptyEnv : Nat → List (List ScrapedItem) := fun _ => []

/-! # Theorems

## Store lemmas: keys, updates and inserts -/

theorem updateRow_key (it : ScrapedItem) (now : Nat) (r : ItemRow) :
    (updateRow it now r).key = r.key := by
  unfold updateRow
  split
  · simp [ItemRow.key]
  · rfl

theorem updateRow_timestamp (it : ScrapedItem) (now : Nat) (r : ItemRow) :
    (updateRow it now r).timestamp = r.timestamp := by
  unfold updateRow
  split <;> rfl

theorem updateRow_site_id (it : ScrapedItem) (now : Nat) (r : ItemRow) :
    (updateRow it now r).site_id = r.site_id := by
  unfold updateRow
  split <;> rfl

theorem insertRow_key (it : ScrapedItem) (now : Nat) :
    (insertRow it now).key = it.key := rfl

theorem hasKey_iff (st : List ItemRow) (k : String × String) :
    hasKey st k = true ↔ k ∈ st.map ItemRow.key := by
  simp only [hasKey, List.any_eq_true, decide_eq_true_eq, List.mem_map]

theorem map_key_map_updateRow (it : ScrapedItem) (now : Nat)
    (st : List ItemRow) :
    (st.map (updateRow it now)).map ItemRow.key = st.map ItemRow.key := by
  induction st with
  | nil => rfl
  | cons r st ih => simp [ih, updateRow_key]

theorem keysNodup_upsertOne (now : Nat) (st : List ItemRow) (it : ScrapedItem)
    (h : keysNodup st) : keysNodup (upsertOne now st it).1 := by
  unfold upsertOne
  split
  · unfold keysNodup
    rw [map_key_map_updateRow]
    exact h
  · rename_i hk
    have hk2 : it.key ∉ st.map ItemRow.key := by
      rw [← hasKey_iff]
      simp [hk]
    unfold keysNodup
    rw [List.map_append, List.map_cons, List.map_nil, insertRow_key,
      List.nodup_append]
    refine ⟨h, List.nodup_singleton _, fun a ha hb => ?_⟩
    rw [List.mem_singleton] at hb
    rw [hb] at ha
    exact hk2 ha

theorem hasKey_upsertOne_self (now : Nat) (st : List ItemRow)
    (it : ScrapedItem) : hasKey (upsertOne now st it).1 it.key = true := by
  unfold upsertOne
  split
  · rename_i h
    rw [hasKey_iff, map_key_map_updateRow]
    exact (hasKey_iff st it.key).mp h
  · rw [hasKey_iff]
    simp [insertRow_key]

theorem hasKey_upsertOne_mono (now : Nat) (st : List ItemRow)
    (it : ScrapedItem) (k : String × String) (h : hasKey st k = true) :
    hasKey (upsertOne now st it).1 k = true := by
  unfold upsertOne
  split
  · rw [hasKey_iff, map_key_map_updateRow]
    exact (hasKey_iff st k).mp h
  · rw [hasKey_iff]
    simp only [List.map_append, List.mem_append]
    exact Or.inl ((hasKey_iff st k).mp h)

theorem hasKey_upsert_items_mono (now : Nat) (items : List ScrapedItem) :
    ∀ (st : List ItemRow) (k : String × String), hasKey st k = true →
      hasKey (upsert_items now st items).1 k = true := by
  induction items with
  | nil => intro st k h; simpa [upsert_items] using h
  | cons a items ih =>
    intro st k h
    simp only [upsert_items]
    exact ih _ _ (hasKey_upsertOne_mono now st a k h)

theorem upsert_items_all_present (now : Nat) (items : List ScrapedItem) :
    ∀ (st : List ItemRow), ∀ it ∈ items,
      hasKey (upsert_items now st items).1 it.key = true := by
  induction items with
  | nil => intro st it h; cases h
  | cons a items ih =>
    intro st it hmem
    rcases List.mem_cons.mp hmem with rfl | hmem2
    · simp only [upsert_items]
      exact hasKey_upsert_items_mono now items _ _ (hasKey_upsertOne_self now st it)
    · simp only [upsert_items]
      exact ih _ it hmem2

theorem keysNodup_upsert_items (now : Nat) (items : List ScrapedItem) :
    ∀ (st : List ItemRow), keysNodup st →
      keysNodup (upsert_items now st items).1 := by
  induction items with
  | nil => intro st h; simpa [upsert_items] using h
  | cons a items ih =>
    intro st h
    simp only [upsert_items]
    exact ih _ (keysNodup_upsertOne now st a h)

theorem upsertOne_of_hasKey (now : Nat) (st : List ItemRow) (it : ScrapedItem)
    (h : hasKey st it.key = true) :
    (upsertOne now st it).1.map ItemRow.key = st.map ItemRow.key ∧
      (upsertOne now st it).2 = 0 := by
  unfold upsertOne
  rw [if_pos h]
  exact ⟨map_key_map_updateRow it now st, rfl⟩

theorem upsert_items_count_zero (now : Nat) (items : List ScrapedItem) :
    ∀ (st : List ItemRow), (∀ it ∈ items, hasKey st it.key = true) →
      (upsert_items now st items).2 = 0 ∧
      (upsert_items now st items).1.map ItemRow.key = st.map ItemRow.key := by
  induction items with
  | nil => intro st _; exact ⟨rfl, rfl⟩
  | cons a items ih =>
    intro st h
    have ha := h a (List.mem_cons_self a items)
    obtain ⟨hkeys, hcnt⟩ := upsertOne_of_hasKey now st a ha
    have h2 : ∀ it ∈ items, hasKey (upsertOne now st a).1 it.key = true := by
      intro it hit
      rw [hasKey_iff, hkeys]
      exact (hasKey_iff st it.key).mp (h it (List.mem_cons_of_mem a hit))
    obtain ⟨c0, k0⟩ := ih (upsertOne now st a).1 h2
    simp only [upsert_items]
    rw [hcnt, c0, k0, hkeys]
    exact ⟨rfl, rfl⟩

theorem countKey_eq_zero (st : List ItemRow) (k : String × String)
    (h : k ∉ st.map ItemRow.key) : countKey st k = 0 := by
  unfold countKey
  rw [List.length_eq_zero, List.filter_eq_nil_iff]
  intro r hr
  simp only [decide_eq_true_eq]
  exact fun hk => h (List.mem_map.mpr ⟨r, hr, hk⟩)

theorem countKey_eq_one (st : List ItemRow) (k : String × String)
    (hn : keysNodup st) (h : hasKey st k = true) : countKey st k = 1 := by
  induction st with
  | nil => simp [hasKey] at h
  | cons r st ih =>
    have hn1 : (ItemRow.key r :: st.map ItemRow.key).Nodup := by
      simpa [keysNodup] using hn
    have hn2 : keysNodup st := (List.nodup_cons.mp hn1).2
    by_cases hrk : r.key = k
    · have hnot : k ∉ st.map ItemRow.key := by
        rw [← hrk]
        exact (List.nodup_cons.mp hn1).1
      have h0 := countKey_eq_zero st k hnot
      unfold countKey at h0 ⊢
      rw [List.filter_cons, if_pos (by simpa using hrk)]
      simp [h0]
    · have h2 : hasKey st k = true := by
        have hmem := (hasKey_iff (r :: st) k).mp h
        rw [List.map_cons, List.mem_cons] at hmem
        rcases hmem with he | hmem2
        · exact absurd he.symm hrk
        · exact (hasKey_iff st k).mpr hmem2
      have h1 := ih hn2 h2
      unfold countKey at h1 ⊢
      rw [List.filter_cons, if_neg (by simpa using hrk)]
      exact h1

theorem get_latest_map_updateRow (it : ScrapedItem) (now : Nat)
    (st : List ItemRow) (site : String) :
    get_latest_timestamp (st.map (updateRow it now)) site none =
      get_latest_timestamp st site none := by
  unfold get_latest_timestamp
  congr 1
  induction st with
  | nil => rfl
  | cons r st ih =>
    by_cases hs : r.site_id = site
    · simp [List.filter_cons, hs, updateRow_site_id, updateRow_timestamp] at ih ⊢
      exact ih
    · simp [List.filter_cons, hs, updateRow_site_id] at ih ⊢
      exact ih

/-- **C1** (idempotent upsert): for any item list `R` and any store satisfying
the primary-key invariant, running `upsert_items R` twice returns `new_count
= 0` on the second call, and afterwards the store holds exactly one row per
`(site_id, id)` key appearing in `R`. -/
theorem upsert_records_idempotent (now1 now2 : Nat) (st : List ItemRow)
    (R : List ScrapedItem) (hinv : keysNodup st) :
    (upsert_items now2 (upsert_items now1 st R).1 R).2 = 0 ∧
    ∀ it ∈ R,
      countKey (upsert_items now2 (upsert_items now1 st R).1 R).1 it.key = 1 := by
  have hpres : ∀ it ∈ R, hasKey (upsert_items now1 st R).1 it.key = true :=
    upsert_items_all_present now1 R st
  obtain ⟨hc, hkeys⟩ := upsert_items_count_zero now2 R (upsert_items now1 st R).1 hpres
  refine ⟨hc, fun it hit => ?_⟩
  have hn1 : keysNodup (upsert_items now1 st R).1 :=
    keysNodup_upsert_items now1 R st hinv
  have hn2 : keysNodup (upsert_items now2 (upsert_items now1 st R).1 R).1 := by
    unfold keysNodup
    rw [hkeys]
    exact hn1
  have hk2 : hasKey (upsert_items now2 (upsert_items now1 st R).1 R).1 it.key = true := by
    rw [hasKey_iff, hkeys]
    exact (hasKey_iff _ _).mp (hpres it hit)
  exact countKey_eq_one _ _ hn2 hk2

/-- Witness for C1 at a concrete input: empty store, a three-item list with a
repeated key; the second pass inserts nothing and each key occurs once. -/
theorem upsert_records_idempotent_witness :
    keysNodup [] ∧
    (upsert_items 1 (upsert_items 0 [] [sampleItemA, sampleItemB, sampleItemA2]).1
        [sampleItemA, sampleItemB, sampleItemA2]).2 = 0 ∧
    countKey (upsert_items 1 (upsert_items 0 [] [sampleItemA, sampleItemB, sampleItemA2]).1
        [sampleItemA, sampleItemB, sampleItemA2]).1 sampleItemA.key = 1 := by
  have h := upsert_records_idempotent 0 1 []
    [sampleItemA, sampleItemB, sampleItemA2] (by simp [keysNodup])
  exact ⟨by simp [keysNodup], h.1, h.2 sampleItemA (by simp)⟩

/-- **C7** (timestamp preservation on update): upserting an item whose key is
already stored maps every row through `updateRow`, which overwrites `text`,
`url`, `author_id`, `author_name` and `extra`, refreshes `fetched_at`, and
leaves the stored `timestamp` unchanged; consequently `get_latest_timestamp`
for every source is unaffected. -/
theorem upsert_timestamp_preserved (now : Nat) (st : List ItemRow)
    (it : ScrapedItem) (hk : hasKey st it.key = true) :
    (upsert_items now st [it]).1 = st.map (updateRow it now) ∧
    (∀ r ∈ st, r.key = it.key →
      (updateRow it now r).timestamp = r.timestamp ∧
      (updateRow it now r).text = it.text ∧
      (updateRow it now r).url = it.url ∧
      (updateRow it now r).author_id = it.author_id ∧
      (updateRow it now r).author_name = it.author_name ∧
      (updateRow it now r).extra = it.extra ∧
      (updateRow it now r).fetched_at = now) ∧
    ∀ site : String,
      get_latest_timestamp (upsert_items now st [it]).1 site none =
        get_latest_timestamp st site none := by
  have h1 : (upsert_items now st [it]).1 = st.map (updateRow it now) := by
    simp only [upsert_items, upsertOne, if_pos hk]
  refine ⟨h1, fun r hr hkey => ?_, fun site => ?_⟩
  · refine ⟨updateRow_timestamp it now r, ?_⟩
    unfold updateRow
    rw [if_pos hkey]
    exact ⟨rfl, rfl, rfl, rfl, rfl, rfl⟩
  · rw [h1]
    exact get_latest_map_updateRow it now st site

/-- Witness for C7 at a concrete input: a store holding keys `("s","1")` (ts
10) and `("s","2")` (ts 20); upserting a record with key `("s","1")`, new text
and older timestamp 5 leaves the latest timestamp of source `"s"` at 20. -/
theorem upsert_timestamp_preserved_witness :
    hasKey [insertRow sampleItemA 0, insertRow sampleItemB 0] sampleItemA2.key
      = true ∧
    get_latest_timestamp
      (upsert_items 7 [insertRow sampleItemA 0, insertRow sampleItemB 0]
        [sampleItemA2]).1 "s" none = some 20 ∧
    get_latest_timestamp [insertRow sampleItemA 0, insertRow sampleItemB 0]
      "s" none = some 20 := by
  have h := upsert_timestamp_preserved 7
    [insertRow sampleItemA 0, insertRow sampleItemB 0] sampleItemA2 (by decide)
  refine ⟨by decide, ?_, by decide⟩
  rw [h.2.2 "s"]
  decide

/-! ## Stable descending sort lemmas -/

theorem insertDescBy_perm {α : Type} (ts : α → Nat) (x : α) (l : List α) :
    List.Perm (insertDescBy ts x l) (x :: l) := by
  induction l with
  | nil => rfl
  | cons y ys ih =>
    unfold insertDescBy
    split
    · exact ((ih.cons y).trans (List.Perm.swap x y ys))
    · rfl

theorem insertDescBy_pairwise {α : Type} (ts : α → Nat) (x : α) {l : List α}
    (h : l.Pairwise (fun a b => ts b ≤ ts a)) :
    (insertDescBy ts x l).Pairwise (fun a b => ts b ≤ ts a) := by
  induction l with
  | nil => simp [insertDescBy]
  | cons y ys ih =>
    rw [List.pairwise_cons] at h
    unfold insertDescBy
    split
    · rename_i hxy
      rw [List.pairwise_cons]
      refine ⟨fun z hz => ?_, ih h.2⟩
      have hz2 : z ∈ x :: ys := (insertDescBy_perm ts x ys).mem_iff.mp hz
      rcases List.mem_cons.mp hz2 with rfl | hzys
      · exact le_of_lt hxy
      · exact h.1 z hzys
    · rename_i hxy
      rw [List.pairwise_cons]
      refine ⟨fun z hz => ?_, List.Pairwise.cons h.1 h.2⟩
      rcases List.mem_cons.mp hz with rfl | hzys
      · exact Nat.le_of_not_lt hxy
      · exact le_trans (h.1 z hzys) (Nat.le_of_not_lt hxy)

theorem sortDescBy_perm {α : Type} (ts : α → Nat) (l : List α) :
    List.Perm (sortDescBy ts l) l := by
  induction l with
  | nil => rfl
  | cons x xs ih =>
    unfold sortDescBy
    exact (insertDescBy_perm ts x (sortDescBy ts xs)).trans (ih.cons x)

theorem sortDescBy_pairwise {α : Type} (ts : α → Nat) (l : List α) :
    (sortDescBy ts l).Pairwise (fun a b => ts b ≤ ts a) := by
  induction l with
  | nil => simp [sortDescBy]
  | cons x xs ih =>
    unfold sortDescBy
    exact insertDescBy_pairwise ts x ih

theorem insertDescBy_filter_eq {α : Type} (ts : α → Nat) (t : Nat) (x : α) :
    ∀ (l : List α), l.Pairwise (fun a b => ts b ≤ ts a) →
      (insertDescBy ts x l).filter (fun a => ts a = t) =
        (x :: l).filter (fun a => ts a = t) := by
  intro l
  induction l with
  | nil => intro _; rfl
  | cons y ys ih =>
    intro h
    rw [List.pairwise_cons] at h
    unfold insertDescBy
    split
    · rename_i hxy
      have h3 := ih h.2
      by_cases hx : ts x = t
      · have hy : ¬ ts y = t := by omega
        simp [List.filter_cons, hx, hy] at h3 ⊢
        exact h3
      · simp [List.filter_cons, hx] at h3 ⊢
        rw [h3]
    · rfl

theorem sortDescBy_filter_eq {α : Type} (ts : α → Nat) (t : Nat)
    (l : List α) :
    (sortDescBy ts l).filter (fun a => ts a = t) =
      l.filter (fun a => ts a = t) := by
  induction l with
  | nil => rfl
  | cons x xs ih =>
    unfold sortDescBy
    rw [insertDescBy_filter_eq ts t x (sortDescBy ts xs)
      (sortDescBy_pairwise ts xs)]
    rw [List.filter_cons, List.filter_cons, ih]

/-! ## Dedup lemmas -/

theorem dedupGo_sublist (seen : List String) (l : List ScrapedItem) :
    (dedupGo seen l).Sublist l := by
  induction l generalizing seen with
  | nil => simp [dedupGo]
  | cons it rest ih =>
    unfold dedupGo
    split
    · exact (ih seen).cons it
    · exact (ih (it.id :: seen)).cons₂ it

theorem dedupById_sublist (l : List ScrapedItem) :
    (dedupById l).Sublist l := dedupGo_sublist [] l

theorem dedupGo_spec (l : List ScrapedItem) :
    ∀ seen : List String, ∀ it ∈ dedupGo seen l,
      it.id ∉ seen ∧ l.find? (fun x => x.id = it.id) = some it := by
  induction l with
  | nil => intro seen it h; cases h
  | cons a rest ih =>
    intro seen it hmem
    unfold dedupGo at hmem
    split at hmem
    · rename_i ha
      obtain ⟨hid, hfind⟩ := ih seen it hmem
      have hne : ¬ a.id = it.id := fun he => hid (he ▸ ha)
      refine ⟨hid, ?_⟩
      rw [List.find?_cons_of_neg _ (by simpa using hne)]
      exact hfind
    · rename_i ha
      rcases List.mem_cons.mp hmem with rfl | hmem2
      · refine ⟨ha, ?_⟩
        rw [List.find?_cons_of_pos _ (by simp)]
      · obtain ⟨hid, hfind⟩ := ih (a.id :: seen) it hmem2
        have hne : ¬ a.id = it.id := by
          intro he
          exact hid (he ▸ List.mem_cons_self a.id seen)
        refine ⟨fun hs => hid (List.mem_cons_of_mem _ hs), ?_⟩
        rw [List.find?_cons_of_neg _ (by simpa using hne)]
        exact hfind

theorem dedupById_find (l : List ScrapedItem) :
    ∀ it ∈ dedupById l, l.find? (fun x => x.id = it.id) = some it :=
  fun it h => (dedupGo_spec l [] it h).2

theorem dedupGo_ids_nodup (l : List ScrapedItem) :
    ∀ seen : List String,
      ((dedupGo seen l).map ScrapedItem.id).Nodup ∧
      ∀ it ∈ dedupGo seen l, it.id ∉ seen := by
  induction l with
  | nil => intro seen; simp [dedupGo]
  | cons a rest ih =>
    intro seen
    unfold dedupGo
    split
    · exact ih seen
    · rename_i ha
      obtain ⟨hnd, hni⟩ := ih (a.id :: seen)
      constructor
      · rw [List.map_cons, List.nodup_cons]
        refine ⟨fun hmem => ?_, hnd⟩
        obtain ⟨x, hx, hxid⟩ := List.mem_map.mp hmem
        exact hni x hx (hxid ▸ List.mem_cons_self a.id seen)
      · intro it hit
        rcases List.mem_cons.mp hit with rfl | hit2
        · exact ha
        · exact fun hs => hni it hit2 (List.mem_cons_of_mem _ hs)

theorem dedupById_ids_nodup (l : List ScrapedItem) :
    ((dedupById l).map ScrapedItem.id).Nodup :=
  (dedupGo_ids_nodup l []).1

/-! ## Engine lemmas -/

theorem sinceFilter_sublist (since : Option Nat) (l : List ScrapedItem) :
    (sinceFilter since l).Sublist l := by
  unfold sinceFilter
  cases since with
  | none => exact List.Sublist.refl l
  | some T => exact List.filter_sublist l

theorem scrape_items_eq {π : Type} (mp : Nat) (parser : π → List ScrapedItem)
    (env : Nat → List π) (since : Option Nat) :
    (scrapeModel mp parser env since).items =
      sortDescBy (fun it => it.timestamp)
        (sinceFilter since
          (dedupById (scrapeModel mp parser env since).raw)) := rfl

theorem scrollStep_scrolls {π : Type} (parser : π → List ScrapedItem)
    (env : Nat → List π) (st : ScrapeState) :
    (scrollStep parser env st).scrolls = st.scrolls + 1 := rfl

theorem scrollLoop_scrolls_le {π : Type} (parser : π → List ScrapedItem)
    (env : Nat → List π) (since : Option Nat) :
    ∀ (fuel : Nat) (st : ScrapeState),
      (scrollLoop parser env since fuel st).scrolls ≤ st.scrolls + fuel := by
  intro fuel
  induction fuel with
  | zero => intro st; simp [scrollLoop]
  | succ n ih =>
    intro st
    unfold scrollLoop
    by_cases h1 : 3 ≤ (scrollStep parser env st).no_new
    · rw [if_pos h1, scrollStep_scrolls]
      omega
    · rw [if_neg h1]
      by_cases h2 : cutoffStop since (scrollStep parser env st).all_items = true
      · rw [if_pos h2, scrollStep_scrolls]
        omega
      · rw [if_neg h2]
        have h3 := ih (scrollStep parser env st)
        rw [scrollStep_scrolls] at h3
        omega

theorem scrollLoop_scrolls_ge {π : Type} (parser : π → List ScrapedItem)
    (env : Nat → List π) (since : Option Nat) :
    ∀ (fuel : Nat) (st : ScrapeState),
      st.scrolls ≤ (scrollLoop parser env since fuel st).scrolls := by
  intro fuel
  induction fuel with
  | zero => intro st; simp [scrollLoop]
  | succ n ih =>
    intro st
    unfold scrollLoop
    by_cases h1 : 3 ≤ (scrollStep parser env st).no_new
    · rw [if_pos h1, scrollStep_scrolls]
      omega
    · rw [if_neg h1]
      by_cases h2 : cutoffStop since (scrollStep parser env st).all_items = true
      · rw [if_pos h2, scrollStep_scrolls]
        omega
      · rw [if_neg h2]
        have h3 := ih (scrollStep parser env st)
        rw [scrollStep_scrolls] at h3
        omega

theorem scrollLoop_scrolls_pos {π : Type} (parser : π → List ScrapedItem)
    (env : Nat → List π) (since : Option Nat) (fuel : Nat)
    (st : ScrapeState) :
    st.scrolls + 1 ≤ (scrollLoop parser env since (fuel + 1) st).scrolls := by
  unfold scrollLoop
  by_cases h1 : 3 ≤ (scrollStep parser env st).no_new
  · rw [if_pos h1, scrollStep_scrolls]
  · rw [if_neg h1]
    by_cases h2 : cutoffStop since (scrollStep parser env st).all_items = true
    · rw [if_pos h2, scrollStep_scrolls]
    · rw [if_neg h2]
      have h3 := scrollLoop_scrolls_ge parser env since fuel
        (scrollStep parser env st)
      rw [scrollStep_scrolls] at h3
      omega

theorem scrollStep_batches_nonempty {π : Type}
    (parser : π → List ScrapedItem) (env : Nat → List π) (st : ScrapeState)
    (h : ∀ b ∈ st.batches, b ≠ []) :
    ∀ b ∈ (scrollStep parser env st).batches, b ≠ [] := by
  intro b hb
  unfold scrollStep at hb
  simp only at hb
  split at hb
  · exact h b hb
  · rename_i hne
    rcases List.mem_append.mp hb with hb1 | hb2
    · exact h b hb1
    · rw [List.mem_singleton] at hb2
      rw [hb2]
      intro hnil
      rw [hnil] at hne
      simp at hne

theorem scrollLoop_batches_nonempty {π : Type}
    (parser : π → List ScrapedItem) (env : Nat → List π) (since : Option Nat) :
    ∀ (fuel : Nat) (st : ScrapeState), (∀ b ∈ st.batches, b ≠ []) →
      ∀ b ∈ (scrollLoop parser env since fuel st).batches, b ≠ [] := by
  intro fuel
  induction fuel with
  | zero => intro st h; simpa [scrollLoop] using h
  | succ n ih =>
    intro st h
    have h2 := scrollStep_batches_nonempty parser env st h
    unfold scrollLoop
    by_cases h1 : 3 ≤ (scrollStep parser env st).no_new
    · rw [if_pos h1]
      exact h2
    · rw [if_neg h1]
      by_cases hc : cutoffStop since (scrollStep parser env st).all_items = true
      · rw [if_pos hc]
        exact h2
      · rw [if_neg hc]
        exact ih (scrollStep parser env st) h2

/-- **C2** (cutoff filtering): with `since = T`, no item of the engine's
final result has `timestamp ≤ T`. -/
theorem engine_cutoff_filtering {π : Type} (mp : Nat)
    (parser : π → List ScrapedItem) (env : Nat → List π) (T : Nat) :
    ∀ it ∈ (scrapeModel mp parser env (some T)).items, T < it.timestamp := by
  intro it hit
  rw [scrape_items_eq] at hit
  have hit2 := (sortDescBy_perm (fun it : ScrapedItem => it.timestamp) _).mem_iff.mp hit
  unfold sinceFilter at hit2
  have h3 := List.of_mem_filter hit2
  simpa using h3

/-- Witness for C2: with cutoff 15, the run over `sampleEnv` keeps item `B`
(ts 20, above the cutoff) in its final result. -/
theorem engine_cutoff_filtering_witness :
    sampleItemB ∈ (scrapeModel 50 id sampleEnv (some 15)).items ∧
    15 < sampleItemB.timestamp := by
  refine ⟨by decide, ?_⟩
  exact engine_cutoff_filtering 50 id sampleEnv 15 sampleItemB (by decide)

/-- **C3** (descending order law): the engine's final result is pairwise
descending in `timestamp`, and for every timestamp value the sub-sequence of
items carrying it is a sublist of the raw accumulation — equal timestamps
keep their relative scroll order. -/
theorem engine_descending_order {π : Type} (mp : Nat)
    (parser : π → List ScrapedItem) (env : Nat → List π)
    (since : Option Nat) :
    (scrapeModel mp parser env since).items.Pairwise
      (fun a b => b.timestamp ≤ a.timestamp) ∧
    ∀ t : Nat,
      ((scrapeModel mp parser env since).items.filter
          (fun it => it.timestamp = t)).Sublist
        ((scrapeModel mp parser env since).raw.filter
          (fun it => it.timestamp = t)) := by
  constructor
  · rw [scrape_items_eq]
    exact sortDescBy_pairwise _ _
  · intro t
    rw [scrape_items_eq, sortDescBy_filter_eq]
    have h1 := sinceFilter_sublist since
      (dedupById (scrapeModel mp parser env since).raw)
    have h2 := dedupById_sublist (scrapeModel mp parser env since).raw
    exact (h1.trans h2).filter _

/-- Witness for C3 at a concrete input: the run over `sampleEnv` returns a
timestamp-descending list. -/
theorem engine_descending_order_witness :
    (scrapeModel 50 id sampleEnv none).items.Pairwise
      (fun a b => b.timestamp ≤ a.timestamp) :=
  (engine_descending_order 50 id sampleEnv none).1

/-- **C6** (dedup by id): each id occurs at most once in the engine's final
result, and every returned item is the first item with its id in the raw
accumulation (first occurrence in scroll order survives). -/
theorem engine_dedup_by_id {π : Type} (mp : Nat)
    (parser : π → List ScrapedItem) (env : Nat → List π)
    (since : Option Nat) :
    ((scrapeModel mp parser env since).items.map ScrapedItem.id).Nodup ∧
    ∀ it ∈ (scrapeModel mp parser env since).items,
      (scrapeModel mp parser env since).raw.find? (fun x => x.id = it.id)
        = some it := by
  constructor
  · rw [scrape_items_eq]
    have h1 := dedupById_ids_nodup (scrapeModel mp parser env since).raw
    have h2 := (sinceFilter_sublist since
      (dedupById (scrapeModel mp parser env since).raw)).map ScrapedItem.id
    have h3 := h1.sublist h2
    exact ((sortDescBy_perm (fun it : ScrapedItem => it.timestamp) _).map
      ScrapedItem.id).nodup_iff.mpr h3
  · intro it hit
    rw [scrape_items_eq] at hit
    have h1 := (sortDescBy_perm (fun it : ScrapedItem => it.timestamp) _).mem_iff.mp hit
    have h2 : it ∈ dedupById (scrapeModel mp parser env since).raw :=
      (sinceFilter_sublist since _).subset h1
    exact dedupById_find _ it h2

/-- Witness for C6: in the `sampleEnv` run item `B` is accumulated twice
(initial page and scroll 1) but survives once, as its first occurrence. -/
theorem engine_dedup_by_id_witness :
    sampleItemB ∈ (scrapeModel 50 id sampleEnv none).items ∧
    (scrapeModel 50 id sampleEnv none).raw.find?
        (fun x => x.id = sampleItemB.id) = some sampleItemB ∧
    (scrapeModel 50 id sampleEnv none).raw.count sampleItemB = 2 := by
  refine ⟨by decide, ?_, by decide⟩
  exact (engine_dedup_by_id 50 id sampleEnv none).2 sampleItemB (by decide)

/-! ## Early bailout, batching and stagnation -/

theorem scrape_bailout {π : Type} (mp : Nat) (parser : π → List ScrapedItem)
    (env : Nat → List π) (T : Nat) (hne : newItemsAt parser env 0 ≠ [])
    (hall : ∀ it ∈ newItemsAt parser env 0, it.timestamp ≤ T) :
    (scrapeModel mp parser env (some T)).scrolls = 0 ∧
    (scrapeModel mp parser env (some T)).items = [] ∧
    (scrapeModel mp parser env (some T)).batches = [newItemsAt parser env 0] := by
  have hemp : (newItemsAt parser env 0).isEmpty = false := by
    cases h : newItemsAt parser env 0 with
    | nil => exact absurd h hne
    | cons a l => rfl
  have hb : earlyBailout (some T) (newItemsAt parser env 0) = true := by
    unfold earlyBailout
    rw [Bool.and_eq_true, List.all_eq_true]
    constructor
    · rw [hemp]
      rfl
    · intro it hit
      simpa using hall it hit
  have hfs : scrapeFinalState mp parser env (some T) = initState parser env := by
    unfold scrapeFinalState
    rw [if_pos hb]
  refine ⟨?_, ?_, ?_⟩
  · show (scrapeFinalState mp parser env (some T)).scrolls = 0
    rw [hfs]
    rfl
  · show sortDescBy (fun it => it.timestamp)
        (sinceFilter (some T)
          (dedupById (scrapeFinalState mp parser env (some T)).all_items)) = []
    rw [hfs]
    have hnil : sinceFilter (some T)
        (dedupById (initState parser env).all_items) = [] := by
      unfold sinceFilter
      rw [List.filter_eq_nil_iff]
      intro it hit
      have h2 : it ∈ newItemsAt parser env 0 :=
        (dedupById_sublist _).subset hit
      have h3 := hall it h2
      simp
      omega
    rw [hnil]
    rfl
  · show (scrapeFinalState mp parser env (some T)).batches = _
    rw [hfs]
    unfold initState
    simp only [hemp]
    rfl

theorem cutoffStop_none (items : List ScrapedItem) :
    cutoffStop none items = false := by
  unfold cutoffStop
  cases (items.map (fun it => it.timestamp)).min? <;> rfl

theorem scrollLoop_stagnant {π : Type} (parser : π → List ScrapedItem)
    (env : Nat → List π) :
    ∀ (fuel : Nat) (st : ScrapeState),
      (∀ i, st.scrolls < i → newItemsAt parser env i = []) →
      st.no_new ≤ 2 → 3 ≤ st.no_new + fuel →
      (scrollLoop parser env none fuel st).scrolls
        = st.scrolls + (3 - st.no_new) := by
  intro fuel
  induction fuel with
  | zero =>
    intro st h hle h3
    simp only [scrollLoop]
    omega
  | succ n ih =>
    intro st h hle h3
    have hnil : newItemsAt parser env (st.scrolls + 1) = [] :=
      h _ (by omega)
    have hnn : (scrollStep parser env st).no_new = st.no_new + 1 := by
      unfold scrollStep
      simp [hnil]
    unfold scrollLoop
    by_cases hstop : 3 ≤ (scrollStep parser env st).no_new
    · rw [if_pos hstop, scrollStep_scrolls]
      rw [hnn] at hstop
      omega
    · rw [if_neg hstop]
      rw [if_neg (by simp [cutoffStop_none])]
      have h2 : ∀ i, (scrollStep parser env st).scrolls < i →
          newItemsAt parser env i = [] := by
        rw [scrollStep_scrolls]
        intro i hi
        exact h i (by omega)
      rw [hnn] at hstop
      have h4 := ih (scrollStep parser env st) h2 (by omega) (by rw [hnn]; omega)
      rw [h4, scrollStep_scrolls, hnn]
      omega

/-- The scroll count of a run never exceeds the configured `max_pages`. -/
theorem scrape_scrolls_le_max_pages {π : Type} (mp : Nat)
    (parser : π → List ScrapedItem) (env : Nat → List π)
    (since : Option Nat) :
    (scrapeModel mp parser env since).scrolls ≤ mp := by
  show (scrapeFinalState mp parser env since).scrolls ≤ mp
  unfold scrapeFinalState
  split
  · show (initState parser env).scrolls ≤ mp
    exact Nat.zero_le mp
  · have h := scrollLoop_scrolls_le parser env since mp (initState parser env)
    have h0 : (initState parser env).scrolls = 0 := rfl
    omega

/-- **C5** (early bailout): with `since` set, a nonempty initial parse all of
whose timestamps are `≤ since` skips the scroll loop (zero iterations) and
returns an empty final list; with `since` set but an empty initial parse, the
engine falls through to the scroll loop (at least one iteration when
`max_pages ≥ 1`). -/
theorem engine_early_bailout {π : Type} (mp : Nat)
    (parser : π → List ScrapedItem) (env : Nat → List π) (T : Nat) :
    (newItemsAt parser env 0 ≠ [] →
      (∀ it ∈ newItemsAt parser env 0, it.timestamp ≤ T) →
      (scrapeModel mp parser env (some T)).scrolls = 0 ∧
      (scrapeModel mp parser env (some T)).items = []) ∧
    (newItemsAt parser env 0 = [] → 1 ≤ mp →
      1 ≤ (scrapeModel mp parser env (some T)).scrolls) := by
  constructor
  · intro hne hall
    obtain ⟨hs, hi, _⟩ := scrape_bailout mp parser env T hne hall
    exact ⟨hs, hi⟩
  · intro hnil hmp
    have hb : earlyBailout (some T) (newItemsAt parser env 0) = false := by
      unfold earlyBailout
      rw [hnil]
      rfl
    show 1 ≤ (scrapeFinalState mp parser env (some T)).scrolls
    unfold scrapeFinalState
    rw [if_neg (by simp [hb])]
    obtain ⟨m, rfl⟩ : ∃ m, mp = m + 1 := ⟨mp - 1, by omega⟩
    have h := scrollLoop_scrolls_pos parser env (some T) m (initState parser env)
    have h0 : (initState parser env).scrolls = 0 := rfl
    omega

/-- Witness for C5: cutoff 25 over `sampleEnv` (initial items at ts 10 and
20, both `≤ 25`) bails out with zero scrolls and an empty result; the same
cutoff over an empty first page falls through and scrolls. -/
theorem engine_early_bailout_witness :
    ((scrapeModel 50 id sampleEnv (some 25)).scrolls = 0 ∧
     (scrapeModel 50 id sampleEnv (some 25)).items = []) ∧
    1 ≤ (scrapeModel 50 id emptyEnv (some 25)).scrolls := by
  constructor
  · exact (engine_early_bailout 50 id sampleEnv 25).1 (by decide) (by decide)
  · exact (engine_early_bailout 50 id emptyEnv 25).2 (by decide) (by decide)

/-- **C10** (batch delivery before bailout): when early bailout triggers, the
initial items — all excluded from the (empty) final result — were already
delivered to `on_batch` as the single emitted batch; and `on_batch` is never
invoked with an empty list. -/
theorem engine_batch_delivery {π : Type} (mp : Nat)
    (parser : π → List ScrapedItem) (env : Nat → List π) (T : Nat) :
    (newItemsAt parser env 0 ≠ [] →
      (∀ it ∈ newItemsAt parser env 0, it.timestamp ≤ T) →
      (scrapeModel mp parser env (some T)).batches = [newItemsAt parser env 0] ∧
      (scrapeModel mp parser env (some T)).items = []) ∧
    ∀ since : Option Nat, ∀ b ∈ (scrapeModel mp parser env since).batches,
      b ≠ [] := by
  constructor
  · intro hne hall
    obtain ⟨_, hi, hbat⟩ := scrape_bailout mp parser env T hne hall
    exact ⟨hbat, hi⟩
  · intro since b hb
    have hinit : ∀ c ∈ (initState parser env).batches, c ≠ [] := by
      unfold initState
      simp only
      split
      · intro c hc
        cases hc
      · rename_i hne2
        intro c hc
        rw [List.mem_singleton] at hc
        rw [hc]
        intro hnil2
        rw [hnil2] at hne2
        simp at hne2
    have hb2 : b ∈ (scrapeFinalState mp parser env since).batches := hb
    unfold scrapeFinalState at hb2
    split at hb2
    · exact hinit b hb2
    · exact scrollLoop_batches_nonempty parser env since mp
        (initState parser env) hinit b hb2

/-- Witness for C10: in the bailing-out run over `sampleEnv` with cutoff 25,
the initial items were delivered as one batch while the result is empty, and
no emitted batch of the `since = none` run is empty. -/
theorem engine_batch_delivery_witness :
    (scrapeModel 50 id sampleEnv (some 25)).batches
      = [[sampleItemA, sampleItemB]] ∧
    (scrapeModel 50 id sampleEnv (some 25)).items = [] ∧
    ([] : List ScrapedItem) ∉ (scrapeModel 50 id sampleEnv none).batches := by
  have h := (engine_batch_delivery 50 id sampleEnv 25).1 (by decide) (by decide)
  refine ⟨?_, h.2, ?_⟩
  · rw [h.1]
    rfl
  · intro hmem
    exact (engine_batch_delivery 50 id sampleEnv 25).2 none [] hmem rfl

/-- **C4** (stagnation bound): one scroll iteration increments the
consecutive-stagnation counter exactly when it parsed no new item and resets
it to 0 otherwise; the loop never exceeds `max_pages` iterations; and a run
with `since` unset whose scrolls never yield a new item performs exactly 3
scroll iterations (for `max_pages ≥ 3`). -/
theorem engine_stagnation_bound {π : Type} (mp : Nat)
    (parser : π → List ScrapedItem) (env : Nat → List π)
    (since : Option Nat) :
    (∀ st : ScrapeState,
      (newItemsAt parser env (st.scrolls + 1) = [] →
        (scrollStep parser env st).no_new = st.no_new + 1) ∧
      (newItemsAt parser env (st.scrolls + 1) ≠ [] →
        (scrollStep parser env st).no_new = 0)) ∧
    (scrapeModel mp parser env since).scrolls ≤ mp ∧
    (since = none → 3 ≤ mp →
      (∀ i, 1 ≤ i → newItemsAt parser env i = []) →
      (scrapeModel mp parser env since).scrolls = 3) := by
  refine ⟨fun st => ⟨?_, ?_⟩, scrape_scrolls_le_max_pages mp parser env since, ?_⟩
  · intro hnil
    unfold scrollStep
    simp [hnil]
  · intro hne
    unfold scrollStep
    simp
    exact hne
  · rintro rfl hmp hstag
    show (scrapeFinalState mp parser env none).scrolls = 3
    unfold scrapeFinalState
    have hb : earlyBailout none (newItemsAt parser env 0) = false := rfl
    rw [if_neg (by simp [hb])]
    have h0s : (initState parser env).scrolls = 0 := rfl
    have h0n : (initState parser env).no_new = 0 := rfl
    have hstag2 : ∀ i, (initState parser env).scrolls < i →
        newItemsAt parser env i = [] := by
      intro i hi
      rw [h0s] at hi
      exact hstag i hi
    have h := scrollLoop_stagnant parser env mp (initState parser env)
      hstag2 (by rw [h0n]; omega) (by rw [h0n]; omega)
    rw [h0s, h0n] at h
    rw [h]

/-- Witness for C4: an environment yielding nothing after the first page
stops after exactly 3 scrolls; and the cutoff run over `sampleEnv` stays
within `max_pages = 50`. -/
theorem engine_stagnation_bound_witness :
    (scrapeModel 50 id emptyEnv none).scrolls = 3 ∧
    (scrapeModel 50 id sampleEnv (some 15)).scrolls ≤ 50 := by
  refine ⟨?_, (engine_stagnation_bound 50 id sampleEnv (some 15)).2.1⟩
  exact (engine_stagnation_bound 50 id emptyEnv none).2.2 rfl (by omega)
    (fun i hi => rfl)

/-! ## Search -/

theorem sorted_take_filter_pairwise (f : ItemRow → Bool) (limit : Nat)
    (st : List ItemRow) :
    ((sortDescBy (fun r : ItemRow => r.timestamp) (st.filter f)).take
        limit).Pairwise (fun a b => b.timestamp ≤ a.timestamp) :=
  List.Pairwise.sublist (List.take_sublist _ _)
    (sortDescBy_pairwise (fun r : ItemRow => r.timestamp) (st.filter f))

theorem sorted_take_filter_mem (f : ItemRow → Bool) (limit : Nat)
    (st : List ItemRow) :
    ∀ r ∈ (sortDescBy (fun r : ItemRow => r.timestamp) (st.filter f)).take
        limit, f r = true := by
  intro r hr
  have h1 : r ∈ sortDescBy (fun r : ItemRow => r.timestamp) (st.filter f) :=
    (List.take_sublist _ _).subset hr
  have h2 := (sortDescBy_perm (fun r : ItemRow => r.timestamp)
    (st.filter f)).mem_iff.mp h1
  exact List.of_mem_filter h2

theorem sorted_take_filter_length (f : ItemRow → Bool) (limit : Nat)
    (st : List ItemRow) :
    ((sortDescBy (fun r : ItemRow => r.timestamp) (st.filter f)).take
        limit).length ≤ limit := by
  rw [List.length_take]
  omega

/-- **C8** (search fallback): a query of length `< 3` is answered by the
`LIKE` substring-containment path and one of length `≥ 3` by the indexed
trigram path; on either path the results are descending by timestamp, at most
`limit` long, all satisfy the optional site filter, and all satisfy the
respective match predicate. -/
theorem search_fallback (q : String) (site : Option String) (limit : Nat)
    (st : List ItemRow) :
    (q.length < 3 → search q site limit st = searchLikePath q site limit st) ∧
    (3 ≤ q.length → search q site limit st = searchFtsPath q site limit st) ∧
    (search q site limit st).Pairwise
      (fun a b => b.timestamp ≤ a.timestamp) ∧
    (search q site limit st).length ≤ limit ∧
    (∀ s : String, site = some s →
      ∀ r ∈ search q site limit st, r.site_id = s) ∧
    (q.length < 3 → ∀ r ∈ search q site limit st, likeMatch q r = true) ∧
    (3 ≤ q.length → ∀ r ∈ search q site limit st,
      ftsTrigramMatch q r = true) := by
  by_cases hq : 3 ≤ q.length
  · have hs : search q site limit st = searchFtsPath q site limit st := by
      unfold search
      rw [if_pos hq]
    refine ⟨fun hlt => absurd hq (by omega), fun _ => hs, ?_, ?_, ?_,
      fun hlt => absurd hq (by omega), fun _ r hr => ?_⟩
    · rw [hs]
      exact sorted_take_filter_pairwise _ limit st
    · rw [hs]
      exact sorted_take_filter_length _ limit st
    · intro s hsite r hr
      rw [hs] at hr
      have h1 := sorted_take_filter_mem _ limit st r hr
      rw [Bool.and_eq_true] at h1
      have h2 := h1.2
      rw [hsite] at h2
      unfold siteFilter at h2
      exact of_decide_eq_true h2
    · rw [hs] at hr
      have h1 := sorted_take_filter_mem _ limit st r hr
      rw [Bool.and_eq_true] at h1
      exact h1.1
  · have hs : search q site limit st = searchLikePath q site limit st := by
      unfold search
      rw [if_neg hq]
    refine ⟨fun _ => hs, fun hge => absurd hge hq, ?_, ?_, ?_,
      fun _ r hr => ?_, fun hge => absurd hge hq⟩
    · rw [hs]
      exact sorted_take_filter_pairwise _ limit st
    · rw [hs]
      exact sorted_take_filter_length _ limit st
    · intro s hsite r hr
      rw [hs] at hr
      have h1 := sorted_take_filter_mem _ limit st r hr
      rw [Bool.and_eq_true] at h1
      have h2 := h1.2
      rw [hsite] at h2
      unfold siteFilter at h2
      exact of_decide_eq_true h2
    · rw [hs] at hr
      have h1 := sorted_take_filter_mem _ limit st r hr
      rw [Bool.and_eq_true] at h1
      exact h1.1

/-- Witness for C8: over a store with texts "alpha text" (ts 10) and "beta
text" (ts 20), the 2-character query "be" goes through the `LIKE` path and
the 3-character query "bet" through the trigram path; both return exactly the
"beta text" row. -/
theorem search_fallback_witness :
    search "be" none 10 [insertRow sampleItemA 0, insertRow sampleItemB 0]
      = searchLikePath "be" none 10
        [insertRow sampleItemA 0, insertRow sampleItemB 0] ∧
    search "bet" none 10 [insertRow sampleItemA 0, insertRow sampleItemB 0]
      = searchFtsPath "bet" none 10
        [insertRow sampleItemA 0, insertRow sampleItemB 0] ∧
    search "be" none 10 [insertRow sampleItemA 0, insertRow sampleItemB 0]
      = [insertRow sampleItemB 0] ∧
    search "bet" none 10 [insertRow sampleItemA 0, insertRow sampleItemB 0]
      = [insertRow sampleItemB 0] := by
  refine ⟨(search_fallback "be" none 10 _).1 (by decide),
    (search_fallback "bet" none 10 _).2.1 (by decide), by decide, by decide⟩

/-! ## Configuration surface -/

/-- **C9 counterexample**: none of `poll_attempts`, `poll_interval`,
`settle_delay_min`, `settle_delay_max` is a configuration parameter of
`BaseScraper.__init__` — the polling bounds and the settle delay are not
exposed as configuration inputs. -/
theorem scraper_poll_config_counterexample :
    "poll_attempts" ∉ scraperConfigParams ∧
    "poll_interval" ∉ scraperConfigParams ∧
    "settle_delay_min" ∉ scraperConfigParams ∧
    "settle_delay_max" ∉ scraperConfigParams := by
  refine ⟨?_, ?_, ?_, ?_⟩ <;> decide

/-- **C9 amended**: the engine's configuration inputs are `headless`, the
scroll-delay range `scroll_delay_min`/`scroll_delay_max`, `request_jitter`
and `max_pages` (which genuinely bounds the scroll loop of the model), while
the initial-payload poll attempt count, the poll interval and the settle
delay range are the hard-coded constants 30, 1 s and (2 s, 4 s) inside
`scrape`. -/
theorem scraper_poll_config_amended :
    "scroll_delay_min" ∈ scraperConfigParams ∧
    "scroll_delay_max" ∈ scraperConfigParams ∧
    "request_jitter" ∈ scraperConfigParams ∧
    "max_pages" ∈ scraperConfigParams ∧
    initialPollAttempts = 30 ∧
    initialPollIntervalSeconds = 1 ∧
    settleDelaySecondsRange = (2, 4) ∧
    ∀ (mp : Nat) (parser : List ScrapedItem → List ScrapedItem)
      (env : Nat → List (List ScrapedItem)) (since : Option Nat),
      (scrapeModel mp parser env since).scrolls ≤ mp := by
  refine ⟨by decide, by decide, by decide, by decide, rfl, rfl, rfl, ?_⟩
  intro mp parser env since
  exact scrape_scrolls_le_max_pages mp parser env since

end Horus
